import Mathlib

/-!
Verification of the Sticker-Management local-first persistence core.

The development shallowly embeds the TypeScript source:
* `src/types.ts` — the data model (`StickerSet`, `StickerItem`).
* `src/services/storage.ts` (current revision, the one exporting
  `clearAllStickerSets`, imported by the application root) — the
  IndexedDB-backed Local Store.  An IndexedDB object store keyed by `id`
  is modelled as a list of records with unique ids; a read-write
  transaction either commits every queued `put` or aborts leaving the
  store untouched (IndexedDB abort semantics), and `saveStickerSets`
  resolves in the transaction's `oncomplete` handler and rejects in
  `onerror`, so resolution is modelled as the `Except` value produced
  together with the post-transaction store.
* the application root component — `handleSwapClick`,
  `handleDeleteSet`, `handleFileImport`, in-memory state.
* `src/services/githubSync.ts` — `upload` size gating and `download`
  truncation handling.  Network, `JSON.stringify`/`JSON.parse` and the
  raw-content fetch are platform primitives and enter as explicit
  parameters / fields of the remote-world model.
* `src/utils/imageCompression.ts` — dimension arithmetic and the
  alpha-presence scan.  Canvas dimension assignment truncates the
  fractional part of a positive JS number, so the scaled height is
  modelled with natural-number (floor) division.

JavaScript `Array.prototype.sort` with a comparator `cmp` is modelled
as a stable merge sort ordered by `fun a b => cmp a b ≤ 0`.
-/

namespace StickerMgmt

/-- Lifecycle status of a collection, from `src/types.ts`. -/
inductive CollectionStatus
  | IDEATION
  | IN_PROGRESS
  | ARCHIVED
deriving DecidableEq, Repr

/-- The two collection kinds, from `src/types.ts` (`'Sticker' | 'Emoji'`). -/
inductive CollectionKind
  | Sticker
  | Emoji
deriving DecidableEq, Repr

/-- One sticker slot, from `src/types.ts` (`StickerItem`). -/
structure StickerItem where
  id : String
  originalOrder : Int
  name : String
  imageUrl : Option String
deriving DecidableEq, Repr

/-- One collection record, from `src/types.ts` (`StickerSet`).  The
declared type of `order` is `number`, but the code throughout guards
against records persisted before the ordering feature existed
(`a.order !== undefined`, `typeof s.order === 'number'`), so `order` is
modelled as `Option Int`.  `createdAt` is a `Date.now()` millisecond
timestamp. -/
structure StickerSet where
  id : String
  order : Option Int
  title : String
  enTitle : String
  series : String
  zhDesc : String
  enDesc : String
  storeUrl : String
  status : CollectionStatus
  type : CollectionKind
  itemCount : Int
  createdAt : Int
  items : List StickerItem
deriving DecidableEq, Repr

/-- The IndexedDB object store `sticker_sets`, keyed by `id`. -/
abbrev Store := List StickerSet

/-- Errors surfaced by the storage layer. -/
inductive DBError
  | txnAborted
deriving DecidableEq, Repr

/-- Outcome of a storage call: the settled promise together with the
store as subsequent reads observe it. -/
structure SaveResult where
  result : Except DBError Unit
  store : Store
deriving Repr

/-- One IndexedDB `store.put(set)`: insert or overwrite by key `id`. -/
def putRecord (store : Store) (s : StickerSet) : Store :=
  if store.any (fun t => t.id = s.id) then
    store.map (fun t => if t.id = s.id then s else t)
  else
    store ++ [s]

/-- `saveStickerSets` from `services/storage.ts`: every `put` of the
batch is queued on a single read-write transaction; the promise
resolves in `transaction.oncomplete` and rejects in
`transaction.onerror`.  `engineFails` injects an underlying engine
failure of the transaction; IndexedDB then aborts the whole
transaction, rolling back every queued `put`, so the observable store
is the original one.  An empty batch resolves immediately. -/
def saveStickerSets (store : Store) (sets : List StickerSet) (engineFails : Bool) : SaveResult :=
  if sets.isEmpty then ⟨.ok (), store⟩
  else if engineFails then ⟨.error .txnAborted, store⟩
  else ⟨.ok (), sets.foldl putRecord store⟩

/-- `saveStickerSet` from `services/storage.ts`: a single `put` in its
own transaction. -/
def saveStickerSet (store : Store) (s : StickerSet) (engineFails : Bool) : SaveResult :=
  if engineFails then ⟨.error .txnAborted, store⟩ else ⟨.ok (), putRecord store s⟩

/-- `deleteStickerSet` from `services/storage.ts`: single-key removal. -/
def deleteStickerSetStore (store : Store) (id : String) : Store :=
  store.filter (fun t => t.id ≠ id)

/-- `clearAllStickerSets` from `services/storage.ts`: `store.clear()`. -/
def clearAllStickerSets (_store : Store) : Store := []

/-- The comparator passed to `sets.sort` inside `getAllStickerSets`:
`a.order - b.order` when both orders are defined, otherwise
`b.createdAt - a.createdAt`. -/
def getAllCmp (a b : StickerSet) : Int :=
  match a.order, b.order with
  | some x, some y => x - y
  | _, _ => b.createdAt - a.createdAt

/-- Ascending IndexedDB string-key order, as lexicographic order on the
key's characters. -/
def idLe (a b : StickerSet) : Bool := decide (a.id.toList ≤ b.id.toList)

/-- `getAllStickerSets` from `services/storage.ts`:
`IDBObjectStore.getAll` yields the records in ascending key order, and
the result is then sorted with `getAllCmp`. -/
def getAllStickerSets (store : Store) : List StickerSet :=
  (store.mergeSort idLe).mergeSort (fun a b => getAllCmp a b ≤ 0)

/-- Membership in a `getAllStickerSets` result coincides with
membership in the store. -/
theorem mem_getAllStickerSets {store : Store} {s : StickerSet} :
    s ∈ getAllStickerSets store ↔ s ∈ store := by
  unfold getAllStickerSets
  rw [List.mem_mergeSort, List.mem_mergeSort]

/-- A record is always present after its own `put`. -/
theorem mem_putRecord_self (store : Store) (s : StickerSet) : s ∈ putRecord store s := by
  unfold putRecord
  by_cases h : store.any (fun t => t.id = s.id)
  · simp only [h, if_true]
    rcases List.any_eq_true.mp h with ⟨t, ht, hid⟩
    refine List.mem_map.mpr ⟨t, ht, ?_⟩
    simp [of_decide_eq_true hid]
  · simp [h]

/-- A `put` with a different key preserves a record. -/
theorem mem_putRecord_of_ne {store : Store} {t : StickerSet} (s : StickerSet)
    (ht : t ∈ store) (hne : t.id ≠ s.id) : t ∈ putRecord store s := by
  unfold putRecord
  by_cases h : store.any (fun u => u.id = s.id)
  · simp only [h, if_true]
    exact List.mem_map.mpr ⟨t, ht, by simp [hne]⟩
  · simp [h, ht]

/-- A record whose key is hit by none of the remaining `put`s survives
the rest of the batch. -/
theorem mem_foldl_putRecord_of_forall_ne {sets : List StickerSet} {t : StickerSet}
    (store : Store) (ht : t ∈ store) (h : ∀ u ∈ sets, u.id ≠ t.id) :
    t ∈ sets.foldl putRecord store := by
  induction sets generalizing store with
  | nil => simpa using ht
  | cons x rest ih =>
    simp only [List.foldl_cons]
    exact ih (putRecord store x)
      (mem_putRecord_of_ne x ht (fun hx => (h x (by simp) hx.symm)))
      (fun u hu => h u (by simp [hu]))

/-- With pairwise-distinct keys, every record of the batch is present
after the whole batch of `put`s. -/
theorem mem_foldl_putRecord_of_mem {sets : List StickerSet}
    (hnodup : (sets.map (fun s => s.id)).Nodup) {s : StickerSet} (hs : s ∈ sets)
    (store : Store) : s ∈ sets.foldl putRecord store := by
  induction sets generalizing store with
  | nil => simp at hs
  | cons x rest ih =>
    simp only [List.map_cons, List.nodup_cons] at hnodup
    rcases List.mem_cons.mp hs with h | h
    · subst h
      simp only [List.foldl_cons]
      refine mem_foldl_putRecord_of_forall_ne (putRecord store s)
        (mem_putRecord_self store s) ?_
      intro u hu hid
      exact hnodup.1 (hid ▸ List.mem_map_of_mem (fun t => t.id) hu)
    · exact List.foldl_cons (f := putRecord) .. ▸ ih hnodup.2 h (putRecord store x)

/-- A `put` of a fresh key appends the record. -/
theorem putRecord_of_not_mem {store : Store} {s : StickerSet}
    (h : ∀ t ∈ store, t.id ≠ s.id) : putRecord store s = store ++ [s] := by
  unfold putRecord
  have : store.any (fun t => t.id = s.id) = false := by
    rw [List.any_eq_false]
    intro t ht
    simpa using h t ht
  simp [this]

/-- Key set after a fresh-key `put`. -/
theorem map_id_putRecord_of_not_mem {store : Store} {s : StickerSet}
    (h : ∀ t ∈ store, t.id ≠ s.id) :
    (putRecord store s).map (fun t => t.id) = store.map (fun t => t.id) ++ [s.id] := by
  rw [putRecord_of_not_mem h]
  simp

/-- A batch of fresh, pairwise-distinct keys grows the store by exactly
the batch length. -/
theorem length_foldl_putRecord {sets : List StickerSet}
    (hnodup : (sets.map (fun s => s.id)).Nodup) (store : Store)
    (hnew : ∀ s ∈ sets, ∀ t ∈ store, t.id ≠ s.id) :
    (sets.foldl putRecord store).length = store.length + sets.length := by
  induction sets generalizing store with
  | nil => simp
  | cons x rest ih =>
    simp only [List.map_cons, List.nodup_cons] at hnodup
    have hfresh : ∀ t ∈ store, t.id ≠ x.id := hnew x (by simp)
    have hput : putRecord store x = store ++ [x] := putRecord_of_not_mem hfresh
    simp only [List.foldl_cons, hput]
    rw [ih hnodup.2 (store ++ [x]) ?_]
    · simp [List.length_append]; omega
    · intro s hs t ht
      rcases List.mem_append.mp ht with h | h
      · exact hnew s (by simp [hs]) t h
      · have : t = x := by simpa using h
        subst this
        intro hts
        exact hnodup.1 (hts ▸ List.mem_map_of_mem (fun u => u.id) hs)

/-- Sorting never changes how many records `getAll` returns. -/
theorem length_getAllStickerSets (store : Store) :
    (getAllStickerSets store).length = store.length := by
  unfold getAllStickerSets
  rw [List.length_mergeSort, List.length_mergeSort]

/-- C1: for a batch of new records with pairwise-distinct ids, a
successful `saveStickerSets` (`putMany`) makes every record of the
batch visible to a subsequent `getAllStickerSets`, growing the store by
exactly the batch size; a failed `saveStickerSets` leaves the store
exactly as it was, so none of the batch's new writes are visible.  The
post-transaction store is always either the original or the fully
written one, and resolution (the `.ok` result) is tied to the
transaction's completion, never to an intermediate state. -/
theorem saveStickerSets_atomic (store : Store) (sets : List StickerSet) (engineFails : Bool)
    (hnodup : (sets.map fun s => s.id).Nodup)
    (hnew : ∀ s ∈ sets, ∀ t ∈ store, t.id ≠ s.id) :
    ((saveStickerSets store sets engineFails).result = .ok () →
      (∀ s ∈ sets, s ∈ getAllStickerSets (saveStickerSets store sets engineFails).store) ∧
      (getAllStickerSets (saveStickerSets store sets engineFails).store).length
        = store.length + sets.length) ∧
    (∀ e, (saveStickerSets store sets engineFails).result = .error e →
      (saveStickerSets store sets engineFails).store = store ∧
      ∀ s ∈ sets, ∀ t ∈ getAllStickerSets (saveStickerSets store sets engineFails).store,
        t.id ≠ s.id) := by
  unfold saveStickerSets
  by_cases hempty : sets.isEmpty
  · have h0 : sets = [] := List.isEmpty_iff.mp hempty
    subst h0
    simp [length_getAllStickerSets]
  · simp only [hempty, if_false]
    cases engineFails with
    | true =>
      refine ⟨fun h => by simp at h, fun e _ => ⟨rfl, fun s hs t ht => ?_⟩⟩
      exact hnew s hs t (mem_getAllStickerSets.mp ht)
    | false =>
      refine ⟨fun _ => ⟨fun s hs => ?_, ?_⟩, fun e h => by simp at h⟩
      · exact mem_getAllStickerSets.mpr (mem_foldl_putRecord_of_mem hnodup hs store)
      · rw [length_getAllStickerSets]
        exact length_foldl_putRecord hnodup store hnew

/-- A filler record used by concrete evaluations: only the fields the
storage layer inspects (`id`, `order`, `createdAt`) vary. -/
def mkSet (id : String) (order : Option Int) (createdAt : Int) : StickerSet :=
  { id := id, order := order, title := "T", enTitle := "E", series := "S",
    zhDesc := "", enDesc := "", storeUrl := "", status := .IDEATION,
    type := .Sticker, itemCount := 0, createdAt := createdAt, items := [] }

/-- Concrete instantiation of `saveStickerSets_atomic`: a two-record
batch over a one-record store. -/
theorem saveStickerSets_atomic_witness :
    (([mkSet "b" (some 1) 20, mkSet "c" none 30].map fun s => s.id).Nodup) ∧
    (∀ s ∈ [mkSet "b" (some 1) 20, mkSet "c" none 30],
      ∀ t ∈ [mkSet "a" (some 0) 10], t.id ≠ s.id) ∧
    (∀ s ∈ [mkSet "b" (some 1) 20, mkSet "c" none 30],
      s ∈ getAllStickerSets
        (saveStickerSets [mkSet "a" (some 0) 10]
          [mkSet "b" (some 1) 20, mkSet "c" none 30] false).store) :=
  ⟨by decide, by decide,
    ((saveStickerSets_atomic [mkSet "a" (some 0) 10]
      [mkSet "b" (some 1) 20, mkSet "c" none 30] false
      (by decide) (by decide)).1 rfl).1⟩

/-- `getAllCmp`-induced ordering is total and transitive on records
whose `order` is defined. -/
theorem getAllCmp_some_trans {a b c : StickerSet}
    (ha : a.order.isSome) (hb : b.order.isSome) (hc : c.order.isSome)
    (h1 : getAllCmp a b ≤ 0) (h2 : getAllCmp b c ≤ 0) : getAllCmp a c ≤ 0 := by
  obtain ⟨x, hx⟩ := Option.isSome_iff_exists.mp ha
  obtain ⟨y, hy⟩ := Option.isSome_iff_exists.mp hb
  obtain ⟨z, hz⟩ := Option.isSome_iff_exists.mp hc
  simp only [getAllCmp, hx, hy, hz] at h1 h2 ⊢
  omega

/-- The comparator is total on every pair of records: the two
directions are always negatives of each other. -/
theorem getAllCmp_total (a b : StickerSet) : getAllCmp a b ≤ 0 ∨ getAllCmp b a ≤ 0 := by
  unfold getAllCmp
  cases ha : a.order <;> cases hb : b.order <;> simp <;> omega

/-- `getAll` returns a permutation of the stored records. -/
theorem getAllStickerSets_perm (store : Store) :
    List.Perm (getAllStickerSets store) store :=
  (List.mergeSort_perm (store.mergeSort idLe) _).trans (List.mergeSort_perm store idLe)

/-- On a store all of whose records satisfy a predicate under which the
comparator is transitive, the `getAll` output is pairwise ordered by the
comparator. -/
theorem getAll_pairwise_of_closed (store : Store) (P : StickerSet → Prop)
    (hP : ∀ s ∈ store, P s)
    (htrans : ∀ a b c, P a → P b → P c →
      getAllCmp a b ≤ 0 → getAllCmp b c ≤ 0 → getAllCmp a c ≤ 0) :
    List.Pairwise (fun a b => getAllCmp a b ≤ 0) (getAllStickerSets store) := by
  have hmid : ∀ s ∈ store.mergeSort idLe, P s := by
    intro s hs; exact hP s (List.mem_mergeSort.mp hs)
  have hmap := List.map_mergeSort
    (r := fun a b : {x : StickerSet // P x} => decide (getAllCmp a.val b.val ≤ 0))
    (s := fun a b : StickerSet => decide (getAllCmp a b ≤ 0))
    (f := Subtype.val)
    (l := (store.mergeSort idLe).attachWith _ hmid)
    (fun a _ b _ => rfl)
  have hval : List.map Subtype.val ((store.mergeSort idLe).attachWith _ hmid)
      = store.mergeSort idLe := by simp
  have hsorted := @List.sorted_mergeSort {x : StickerSet // P x}
    (fun a b => decide (getAllCmp a.val b.val ≤ 0))
    (fun a b c hab hbc => by
      simp only [decide_eq_true_eq] at hab hbc ⊢
      exact htrans a.val b.val c.val a.property b.property c.property hab hbc)
    (fun a b => by
      simp only [Bool.or_eq_true, decide_eq_true_eq]
      exact getAllCmp_total a.val b.val)
    ((store.mergeSort idLe).attachWith _ hmid)
  have hsorted2 : List.Pairwise
      (fun a b : {x : StickerSet // P x} => getAllCmp a.val b.val ≤ 0)
      (((store.mergeSort idLe).attachWith _ hmid).mergeSort
        (fun a b => decide (getAllCmp a.val b.val ≤ 0))) :=
    hsorted.imp (fun {a b} hab => by simpa using hab)
  have h2 := (List.pairwise_map (f := Subtype.val)
    (R := fun a b : StickerSet => getAllCmp a b ≤ 0)).mpr hsorted2
  rw [hmap, hval] at h2
  exact h2

/-- C3 (amended): `getAll` always returns a permutation of the store;
when every stored record has a defined `order`, that permutation is
sorted ascending by `order`; when no stored record has a defined
`order`, it is sorted descending by `createdAt`.  (When only some
records carry an `order`, the comparator is applied pair by pair —
order against order, timestamps otherwise — and the result need not be
globally ordered by either key; see the counterexample.) -/
theorem getAllStickerSets_ordering (store : Store) :
    List.Perm (getAllStickerSets store) store ∧
    ((∀ s ∈ store, s.order.isSome) →
      List.Pairwise (fun a b => a.order.getD 0 ≤ b.order.getD 0) (getAllStickerSets store)) ∧
    ((∀ s ∈ store, s.order = none) →
      List.Pairwise (fun a b => b.createdAt ≤ a.createdAt) (getAllStickerSets store)) := by
  refine ⟨getAllStickerSets_perm store, ?_, ?_⟩
  · intro h
    have hpair := getAll_pairwise_of_closed store (fun s => s.order.isSome) h
      (fun a b c ha hb hc => getAllCmp_some_trans ha hb hc)
    refine hpair.imp_of_mem (fun {a b} ha hb hab => ?_)
    have ha2 := h a ((getAllStickerSets_perm store).subset ha)
    have hb2 := h b ((getAllStickerSets_perm store).subset hb)
    obtain ⟨x, hx⟩ := Option.isSome_iff_exists.mp ha2
    obtain ⟨y, hy⟩ := Option.isSome_iff_exists.mp hb2
    simp only [getAllCmp, hx, hy] at hab
    simp only [hx, hy, Option.getD_some]
    omega
  · intro h
    have hpair := getAll_pairwise_of_closed store (fun s => s.order = none) h
      (fun a b c ha hb hc h1 h2 => by
        simp only [getAllCmp, ha, hb, hc] at h1 h2 ⊢
        omega)
    refine hpair.imp_of_mem (fun {a b} ha hb hab => ?_)
    have ha2 := h a ((getAllStickerSets_perm store).subset ha)
    have hb2 := h b ((getAllStickerSets_perm store).subset hb)
    simp only [getAllCmp, ha2, hb2] at hab
    omega

/-- C3 counterexample: a store in which exactly one record lacks an
`order`.  The comparator is consistent on this store (no cycles), so
every comparison sort returns the same result, yet that result is not
sorted descending by creation timestamp, contradicting the claimed
fallback ordering for stores with a missing `order`. -/
def mixedStore : Store :=
  [mkSet "a" (some 2) 10, mkSet "b" (some 1) 5, mkSet "x" none 100]

/-- C3 is false as stated: `mixedStore` has a record without `order`,
but `getAll` does not return it sorted descending by `createdAt` (the
two ordered records come back ascending by `order`, timestamps 5 then
10). -/
theorem getAllStickerSets_mixed_not_timestamp_sorted :
    (∃ s ∈ mixedStore, s.order = none) ∧
    ¬ List.Pairwise (fun a b => b.createdAt ≤ a.createdAt)
        (getAllStickerSets mixedStore) := by
  have hval : getAllStickerSets mixedStore
      = [mkSet "x" none 100, mkSet "b" (some 1) 5, mkSet "a" (some 2) 10] := by
    simp +decide [getAllStickerSets, mixedStore, List.mergeSort, List.merge, idLe,
      getAllCmp, mkSet]
  constructor
  · exact ⟨mkSet "x" none 100, by simp [mixedStore], rfl⟩
  · rw [hval]
    decide

/-- Concrete instantiation of `getAllStickerSets_ordering`: an
all-ordered store comes back ascending by `order`, an order-less store
descending by `createdAt`. -/
theorem getAllStickerSets_ordering_witness :
    (∀ s ∈ [mkSet "a" (some 2) 10, mkSet "b" (some 1) 5], s.order.isSome) ∧
    List.Pairwise (fun a b => a.order.getD 0 ≤ b.order.getD 0)
      (getAllStickerSets [mkSet "a" (some 2) 10, mkSet "b" (some 1) 5]) ∧
    (∀ s ∈ [mkSet "a" none 10, mkSet "b" none 5], s.order = none) ∧
    List.Pairwise (fun a b => b.createdAt ≤ a.createdAt)
      (getAllStickerSets [mkSet "a" none 10, mkSet "b" none 5]) :=
  ⟨by decide,
    (getAllStickerSets_ordering [mkSet "a" (some 2) 10, mkSet "b" (some 1) 5]).2.1 (by decide),
    by decide,
    (getAllStickerSets_ordering [mkSet "a" none 10, mkSet "b" none 5]).2.2 (by decide)⟩

/-! ### Application state and the reorder / delete / import handlers -/

/-- In-memory application state of the root component: the `sets`
React state, the click-to-swap selection `swapSourceId`, and the
persisted store behind them. -/
structure AppState where
  sets : List StickerSet
  swapSourceId : Option String
  store : Store
deriving Repr

/-- JS `s.order || 0`: an undefined `order` reads as `0` (and `0`
itself reads as `0`). -/
def orderOr0 (s : StickerSet) : Int := s.order.getD 0

/-- The re-sort comparator of `handleSwapClick`:
`(a, b) => (a.order || 0) - (b.order || 0)`. -/
def swapSortLe (a b : StickerSet) : Bool := decide (orderOr0 a ≤ orderOr0 b)

/-- `handleSwapClick` from the root component.  `clickId` is the card
clicked; the returned flag records whether the failure alert was
shown.  With no selection the click selects; clicking the selection
deselects; otherwise both records are looked up, their `order` scalars
(read through `|| 0`) are exchanged, the whole collection is re-sorted
by the new orders and persisted via `saveStickerSets`; on persistence
failure the in-memory listing is left untouched and the error is
reported; the selection is reset to `NONE` in every swap branch. -/
def handleSwapClick (clickId : String) (st : AppState) (engineFails : Bool) :
    AppState × Bool :=
  match st.swapSourceId with
  | none => ({ st with swapSourceId := some clickId }, false)
  | some src =>
    if src = clickId then ({ st with swapSourceId := none }, false)
    else
      let indexA := st.sets.findIdx (fun s => s.id = src)
      let indexB := st.sets.findIdx (fun s => s.id = clickId)
      if h : indexA < st.sets.length ∧ indexB < st.sets.length then
        let A := st.sets.get ⟨indexA, h.1⟩
        let B := st.sets.get ⟨indexB, h.2⟩
        let orderA := orderOr0 A
        let orderB := orderOr0 B
        let newSets := (st.sets.set indexA { A with order := some orderB }).set indexB
          { B with order := some orderA }
        let sortedSets := newSets.mergeSort swapSortLe
        let saved := saveStickerSets st.store sortedSets engineFails
        match saved.result with
        | .ok _ => ({ sets := sortedSets, swapSourceId := none, store := saved.store }, false)
        | .error _ => ({ sets := st.sets, swapSourceId := none, store := saved.store }, true)
      else ({ st with swapSourceId := none }, false)

/-- `handleDeleteSet` from the root component: await the store delete,
drop the record from the in-memory listing, and clear the swap
selection when it pointed at the deleted record.  A rejected delete
propagates before any state update. -/
def handleDeleteSet (id : String) (st : AppState) (engineFails : Bool) : AppState :=
  if engineFails then st
  else
    { sets := st.sets.filter (fun s => s.id ≠ id),
      swapSourceId := if st.swapSourceId = some id then none else st.swapSourceId,
      store := deleteStickerSetStore st.store id }

/-- A failed transaction leaves the store as it was. -/
theorem saveStickerSets_error_store {store : Store} {sets : List StickerSet}
    {engineFails : Bool} {e : DBError}
    (h : (saveStickerSets store sets engineFails).result = .error e) :
    (saveStickerSets store sets engineFails).store = store := by
  unfold saveStickerSets at h ⊢
  by_cases h1 : sets.isEmpty
  · simp [h1] at h
  · cases engineFails with
    | true => simp [h1]
    | false => simp [h1] at h

/-- Positions with equal ids coincide when the id column is
duplicate-free. -/
theorem getElem_id_injective {sets : List StickerSet}
    (hnodup : (sets.map fun s => s.id).Nodup)
    {i j : ℕ} (hi : i < sets.length) (hj : j < sets.length)
    (heq : (sets.get ⟨i, hi⟩).id = (sets.get ⟨j, hj⟩).id) : i = j := by
  by_contra hne
  have hpair := (List.pairwise_map.mp hnodup)
  rw [List.pairwise_iff_getElem] at hpair
  rcases Nat.lt_or_ge i j with h | h
  · exact hpair i j hi hj h (by simpa using heq)
  · have hlt : j < i := Nat.lt_of_le_of_ne h (fun hji => hne hji.symm)
    exact hpair j i hj hi hlt (by simpa using heq.symm)

/-- `findIndex` returns the position of the unique record carrying a
given id. -/
theorem findIdx_id_eq {sets : List StickerSet}
    (hnodup : (sets.map fun s => s.id).Nodup)
    {i : ℕ} (hi : i < sets.length) {x : String}
    (hx : (sets.get ⟨i, hi⟩).id = x) :
    sets.findIdx (fun s => s.id = x) = i := by
  rw [List.findIdx_eq hi]
  refine ⟨by simpa using hx, fun j hj => ?_⟩
  simp only [decide_eq_false_iff_not]
  intro hjx
  simp only [List.get_eq_getElem] at hx
  have : j = i := getElem_id_injective hnodup (Nat.lt_trans hj hi) hi
    (by simp only [List.get_eq_getElem]; exact hjx.trans hx.symm)
  omega

/-- Replacing position `k` exchanges the image of the old element for
the image of the new one, up to permutation. -/
theorem map_set_cons_perm {α β : Type} (f : α → β) :
    ∀ (l : List α) (k : ℕ) (hk : k < l.length) (b : α),
      List.Perm (f (l.get ⟨k, hk⟩) :: (l.set k b).map f) (f b :: l.map f)
  | x :: t, 0, _, b => by
    simpa using List.Perm.swap (f b) (f x) (t.map f)
  | x :: t, k + 1, hk, b => by
    have hk2 : k < t.length := by simpa using hk
    have ih := map_set_cons_perm f t k hk2 b
    have h1 : (x :: t).get ⟨k + 1, hk⟩ = t.get ⟨k, hk2⟩ := rfl
    have h2 : (x :: t).set (k + 1) b = x :: t.set k b := rfl
    rw [h1, h2]
    simp only [List.map_cons]
    exact (List.Perm.swap (f x) (f (t.get ⟨k, hk2⟩)) _).trans
      ((ih.cons (f x)).trans (List.Perm.swap (f b) (f x) _))

/-- Writing back the element already stored at a position is a no-op. -/
theorem set_self_eq {α : Type} (l : List α) (n : ℕ) (h : n < l.length) :
    l.set n l[n] = l := by
  apply List.ext_getElem
  · simp
  · intro i h1 h2
    rw [List.getElem_set]
    split
    next h3 => subst h3; rfl
    next h3 => rfl

/-- One overwrite step of a keyed rewrite: replace `t` when its id is
hit. -/
def replaceStep (t s : StickerSet) : StickerSet := if t.id = s.id then s else t

/-- The cumulative effect of a batch of overwrites on one stored
record. -/
def replaceFn (batch : List StickerSet) (t : StickerSet) : StickerSet :=
  batch.foldl replaceStep t

/-- Overwriting never changes a record's key. -/
theorem replaceStep_id (t s : StickerSet) : (replaceStep t s).id = t.id := by
  unfold replaceStep
  split
  next h => exact h.symm
  next h => rfl

/-- Neither does a whole batch of overwrites. -/
theorem replaceFn_id (batch : List StickerSet) (t : StickerSet) :
    (replaceFn batch t).id = t.id := by
  induction batch generalizing t with
  | nil => rfl
  | cons s rest ih => rw [replaceFn, List.foldl_cons, ← replaceFn, ih, replaceStep_id]

/-- When every id of the batch is already present, the whole batch of
`put`s acts as a pointwise overwrite of the store. -/
theorem foldl_putRecord_eq_map (batch : List StickerSet) (store : Store)
    (hcov : ∀ s ∈ batch, ∃ t ∈ store, t.id = s.id) :
    batch.foldl putRecord store = store.map (replaceFn batch) := by
  induction batch generalizing store with
  | nil => exact (List.map_id store).symm
  | cons s rest ih =>
    obtain ⟨t, ht, hid⟩ := hcov s (by simp)
    have hany : store.any (fun u => u.id = s.id) = true :=
      List.any_eq_true.mpr ⟨t, ht, by simpa using hid⟩
    have hput : putRecord store s = store.map (fun t => replaceStep t s) := by
      unfold putRecord replaceStep
      simp [hany]
    have hcov2 : ∀ r ∈ rest, ∃ t ∈ store.map (fun t => replaceStep t s), t.id = r.id := by
      intro r hr
      obtain ⟨u, hu, huid⟩ := hcov r (by simp [hr])
      exact ⟨replaceStep u s, List.mem_map_of_mem _ hu, by rw [replaceStep_id]; exact huid⟩
    rw [List.foldl_cons, hput, ih _ hcov2, List.map_map]
    rfl

/-- The record an overwrite batch with duplicate-free ids leaves behind
for a key it covers is exactly the batch's record with that key. -/
theorem replaceFn_eq_of_not_mem (batch : List StickerSet) (t : StickerSet)
    (h : ∀ u ∈ batch, u.id ≠ t.id) : replaceFn batch t = t := by
  induction batch with
  | nil => rfl
  | cons u rest ih =>
    have hstep : replaceStep t u = t := by
      unfold replaceStep
      rw [if_neg (fun he => h u (by simp) (he.symm))]
    rw [replaceFn, List.foldl_cons, hstep, ← replaceFn]
    exact ih (fun v hv => h v (by simp [hv]))

/-- Companion to `replaceFn_eq_of_not_mem`: a covered key receives the
batch record carrying it. -/
theorem replaceFn_eq_of_mem {batch : List StickerSet}
    (hbn : (batch.map fun s => s.id).Nodup) {s : StickerSet} (hs : s ∈ batch)
    (t : StickerSet) (hid : t.id = s.id) : replaceFn batch t = s := by
  induction batch generalizing t with
  | nil => simp at hs
  | cons x rest ih =>
    simp only [List.map_cons, List.nodup_cons] at hbn
    rcases List.mem_cons.mp hs with h | h
    · subst h
      have hstep : replaceStep t s = s := by unfold replaceStep; rw [if_pos hid]
      rw [replaceFn, List.foldl_cons, hstep, ← replaceFn]
      exact replaceFn_eq_of_not_mem rest s
        (fun u hu he => hbn.1 (he ▸ List.mem_map_of_mem (fun v => v.id) hu))
    · have hxne : t.id ≠ x.id := by
        rw [hid]
        intro he
        exact hbn.1 (he ▸ List.mem_map_of_mem (fun v => v.id) h)
      have hstep : replaceStep t x = t := by unfold replaceStep; rw [if_neg hxne]
      rw [replaceFn, List.foldl_cons, hstep, ← replaceFn]
      exact ih hbn.2 h t hid

/-- A pointwise overwrite of a store by a batch carrying exactly the
same ids (each side duplicate-free) is a permutation of the batch. -/
theorem map_replaceFn_perm : ∀ (store : Store) (batch : List StickerSet),
    (store.map fun s => s.id).Nodup → (batch.map fun s => s.id).Nodup →
    List.Perm (store.map fun s => s.id) (batch.map fun s => s.id) →
    List.Perm (store.map (replaceFn batch)) batch
  | [], batch, _, _, hperm => by
    have : batch.map (fun s => s.id) = [] := (List.Perm.nil_eq hperm).symm
    have hb : batch = [] := List.map_eq_nil_iff.mp this
    simp [hb]
  | t :: rest, batch, hsn, hbn, hperm => by
    have htid : t.id ∈ batch.map (fun s => s.id) := hperm.subset (by simp)
    obtain ⟨s, hs, hsid⟩ := List.mem_map.mp htid
    have hrepl : replaceFn batch t = s := replaceFn_eq_of_mem hbn hs t hsid.symm
    have hbatch : List.Perm batch (s :: batch.erase s) := List.perm_cons_erase hs
    simp only [List.map_cons, List.nodup_cons] at hsn
    have herase_nodup : ((batch.erase s).map fun u => u.id).Nodup :=
      hbn.sublist ((List.erase_sublist s batch).map _)
    have hperm2 : List.Perm (rest.map fun u => u.id) ((batch.erase s).map fun u => u.id) := by
      have h1 : List.Perm (batch.map fun u => u.id)
          (s.id :: ((batch.erase s).map fun u => u.id)) := by
        simpa using hbatch.map (fun u => u.id)
      have h2 : List.Perm (t.id :: (rest.map fun u => u.id))
          (s.id :: ((batch.erase s).map fun u => u.id)) := hperm.trans h1
      rw [← hsid] at h2
      exact h2.cons_inv
    have hcongr : rest.map (replaceFn batch) = rest.map (replaceFn (batch.erase s)) := by
      refine List.map_congr_left (fun r hr => ?_)
      have hrid : r.id ∈ rest.map (fun u => u.id) := List.mem_map_of_mem _ hr
      obtain ⟨u, hu, huid⟩ := List.mem_map.mp (hperm2.subset hrid)
      have humem : u ∈ batch := ((List.erase_sublist s batch).subset hu)
      rw [replaceFn_eq_of_mem hbn humem r huid.symm,
        replaceFn_eq_of_mem herase_nodup hu r huid.symm]
    have ih := map_replaceFn_perm rest (batch.erase s) hsn.2 herase_nodup hperm2
    rw [← hcongr] at ih
    have hstep : List.Perm ((t :: rest).map (replaceFn batch)) (s :: batch.erase s) := by
      simpa [hrepl] using ih.cons s
    exact hstep.trans hbatch.symm

/-- A full-coverage `putMany` rewrite leaves the store a permutation of
the written batch. -/
theorem foldl_putRecord_cover_perm (store : Store) (batch : List StickerSet)
    (hsn : (store.map fun s => s.id).Nodup) (hbn : (batch.map fun s => s.id).Nodup)
    (hperm : List.Perm (store.map fun s => s.id) (batch.map fun s => s.id)) :
    List.Perm (batch.foldl putRecord store) batch := by
  have hcov : ∀ s ∈ batch, ∃ t ∈ store, t.id = s.id := by
    intro s hs
    have : s.id ∈ store.map (fun u => u.id) :=
      hperm.symm.subset (List.mem_map_of_mem _ hs)
    obtain ⟨t, ht, htid⟩ := List.mem_map.mp this
    exact ⟨t, ht, htid⟩
  rw [foldl_putRecord_eq_map batch store hcov]
  exact map_replaceFn_perm store batch hsn hbn hperm

/-- Without an injected engine failure the batch write resolves. -/
theorem saveStickerSets_ok (store : Store) (sets : List StickerSet) :
    (saveStickerSets store sets false).result = .ok () := by
  unfold saveStickerSets
  split <;> rfl

/-- Unfolding of the swap branch of `handleSwapClick`: with a selection
`aid`, a distinct click `bid`, and both records present, the handler
swaps the two `order` scalars, re-sorts, persists, and resets the
selection. -/
theorem handleSwapClick_eq (st : AppState) {aid bid : String}
    (hsrc : st.swapSourceId = some aid) (hne : aid ≠ bid)
    (hnodup : (st.sets.map fun s => s.id).Nodup)
    (iA iB : ℕ) (hiA : iA < st.sets.length) (hiB : iB < st.sets.length)
    (hA : (st.sets.get ⟨iA, hiA⟩).id = aid) (hB : (st.sets.get ⟨iB, hiB⟩).id = bid)
    (engineFails : Bool) :
    handleSwapClick bid st engineFails =
      (match (saveStickerSets st.store (((st.sets.set iA
          { st.sets.get ⟨iA, hiA⟩ with
            order := some (orderOr0 (st.sets.get ⟨iB, hiB⟩)) }).set iB
          { st.sets.get ⟨iB, hiB⟩ with
            order := some (orderOr0 (st.sets.get ⟨iA, hiA⟩)) }).mergeSort swapSortLe)
          engineFails).result with
       | .ok _ =>
          ({ sets := ((st.sets.set iA
              { st.sets.get ⟨iA, hiA⟩ with
                order := some (orderOr0 (st.sets.get ⟨iB, hiB⟩)) }).set iB
              { st.sets.get ⟨iB, hiB⟩ with
                order := some (orderOr0 (st.sets.get ⟨iA, hiA⟩)) }).mergeSort swapSortLe,
             swapSourceId := none,
             store := (saveStickerSets st.store (((st.sets.set iA
               { st.sets.get ⟨iA, hiA⟩ with
                 order := some (orderOr0 (st.sets.get ⟨iB, hiB⟩)) }).set iB
               { st.sets.get ⟨iB, hiB⟩ with
                 order := some (orderOr0 (st.sets.get ⟨iA, hiA⟩)) }).mergeSort swapSortLe)
               engineFails).store }, false)
       | .error _ =>
          ({ sets := st.sets, swapSourceId := none,
             store := (saveStickerSets st.store (((st.sets.set iA
               { st.sets.get ⟨iA, hiA⟩ with
                 order := some (orderOr0 (st.sets.get ⟨iB, hiB⟩)) }).set iB
               { st.sets.get ⟨iB, hiB⟩ with
                 order := some (orderOr0 (st.sets.get ⟨iA, hiA⟩)) }).mergeSort swapSortLe)
               engineFails).store }, true)) := by
  have e1 : st.sets.findIdx (fun s => s.id = aid) = iA := findIdx_id_eq hnodup hiA hA
  have e2 : st.sets.findIdx (fun s => s.id = bid) = iB := findIdx_id_eq hnodup hiB hB
  unfold handleSwapClick
  rw [hsrc]
  simp only [if_neg hne, e1, e2, dif_pos (And.intro hiA hiB)]

/-- Writing two positions with elements whose images under `f` are the
other position's images permutes nothing at the level of `f`-images. -/
theorem map_double_set_perm {α β : Type} (f : α → β) (l : List α) (i j : ℕ)
    (hi : i < l.length) (hj : j < l.length) (hij : i ≠ j) (a b : α)
    (hfa : f a = f (l.get ⟨j, hj⟩)) (hfb : f b = f (l.get ⟨i, hi⟩)) :
    List.Perm (((l.set i a).set j b).map f) (l.map f) := by
  have hj2 : j < (l.set i a).length := by simpa using hj
  have p1 := map_set_cons_perm f (l.set i a) j hj2 b
  have hmid : (l.set i a).get ⟨j, hj2⟩ = l.get ⟨j, hj⟩ := by
    simp only [List.get_eq_getElem, List.getElem_set, if_neg hij]
  rw [hmid, hfb] at p1
  have p2 := map_set_cons_perm f l i hi a
  rw [hfa] at p2
  exact (p1.trans p2).cons_inv

/-- Writing a position with an element sharing its `f`-image leaves the
`f`-image column unchanged. -/
theorem map_set_eq_of_f_eq {α β : Type} (f : α → β) (l : List α) (i : ℕ)
    (hi : i < l.length) (a : α) (hfa : f a = f (l.get ⟨i, hi⟩)) :
    (l.set i a).map f = l.map f := by
  apply List.ext_getElem
  · simp
  · intro j h1 h2
    simp only [List.getElem_map, List.getElem_set]
    by_cases hij : i = j
    · rw [if_pos hij]
      subst hij
      exact hfa
    · rw [if_neg hij]

/-- C2: a swap of two distinct collections `A` (selected) and `B`
(clicked), both present with defined orders `oA`, `oB`, succeeds as
follows: the resulting listing contains `A` with order `oB` and `B`
with order `oA`, those are the only records carrying their ids and
they differ from the originals in no field but `order`; every other
record is kept verbatim; the multiset of `order` values over the whole
collection is unchanged; the selection resets to `NONE`; and the
persisted store (when it mirrored the listing's ids) becomes a
permutation of the new listing. -/
theorem handleSwapClick_swap_correct (st : AppState) {aid bid : String} {oA oB : Int}
    (hsrc : st.swapSourceId = some aid) (hne : aid ≠ bid)
    (hnodup : (st.sets.map fun s => s.id).Nodup)
    (iA iB : ℕ) (hiA : iA < st.sets.length) (hiB : iB < st.sets.length)
    (hA : (st.sets.get ⟨iA, hiA⟩).id = aid) (hB : (st.sets.get ⟨iB, hiB⟩).id = bid)
    (hAord : (st.sets.get ⟨iA, hiA⟩).order = some oA)
    (hBord : (st.sets.get ⟨iB, hiB⟩).order = some oB) :
    ({ st.sets.get ⟨iA, hiA⟩ with order := some oB } ∈ (handleSwapClick bid st false).1.sets) ∧
    ({ st.sets.get ⟨iB, hiB⟩ with order := some oA } ∈ (handleSwapClick bid st false).1.sets) ∧
    (∀ s ∈ (handleSwapClick bid st false).1.sets, s.id = aid →
      s = { st.sets.get ⟨iA, hiA⟩ with order := some oB }) ∧
    (∀ s ∈ (handleSwapClick bid st false).1.sets, s.id = bid →
      s = { st.sets.get ⟨iB, hiB⟩ with order := some oA }) ∧
    (∀ s ∈ (handleSwapClick bid st false).1.sets, s.id ≠ aid → s.id ≠ bid → s ∈ st.sets) ∧
    ((((handleSwapClick bid st false).1.sets.map fun s => s.order) : Multiset (Option Int))
      = ((st.sets.map fun s => s.order) : Multiset (Option Int))) ∧
    ((handleSwapClick bid st false).1.swapSourceId = none) ∧
    ((st.store.map fun s => s.id).Nodup →
      List.Perm (st.store.map fun s => s.id) (st.sets.map fun s => s.id) →
      List.Perm (handleSwapClick bid st false).1.store (handleSwapClick bid st false).1.sets) := by
  have hiAB : iA ≠ iB := by
    intro he
    subst he
    exact hne (hA.symm.trans hB)
  have horderA : orderOr0 (st.sets.get ⟨iA, hiA⟩) = oA := by
    unfold orderOr0; rw [hAord]; rfl
  have horderB : orderOr0 (st.sets.get ⟨iB, hiB⟩) = oB := by
    unfold orderOr0; rw [hBord]; rfl
  rw [handleSwapClick_eq st hsrc hne hnodup iA iB hiA hiB hA hB false]
  simp only [horderA, horderB, saveStickerSets_ok]
  set A := st.sets.get ⟨iA, hiA⟩ with hAdef
  set B := st.sets.get ⟨iB, hiB⟩ with hBdef
  set a2 : StickerSet := { A with order := some oB } with ha2
  set b2 : StickerSet := { B with order := some oA } with hb2
  set newSets : List StickerSet := (st.sets.set iA a2).set iB b2 with hnewdef
  set sortedSets : List StickerSet := newSets.mergeSort swapSortLe with hsorted
  have hlen : newSets.length = st.sets.length := by
    rw [hnewdef]; simp
  have hgetNew : ∀ (j : ℕ) (hj : j < newSets.length) (hj2 : j < st.sets.length),
      newSets.get ⟨j, hj⟩ = if iB = j then b2 else if iA = j then a2
        else st.sets.get ⟨j, hj2⟩ := by
    intro j hj hj2
    have hj3 : j < ((st.sets.set iA a2).set iB b2).length := by simpa using hj2
    show ((st.sets.set iA a2).set iB b2).get ⟨j, hj3⟩ = _
    simp only [List.get_eq_getElem, List.getElem_set]
  have hmemNew : ∀ s ∈ sortedSets, s ∈ newSets := by
    intro s hs
    exact List.mem_mergeSort.mp hs
  have hIdA : a2.id = aid := hA
  have hIdB : b2.id = bid := hB
  have haIn : a2 ∈ newSets := by
    have hj : iA < newSets.length := by rw [hlen]; exact hiA
    have := hgetNew iA hj hiA
    rw [if_neg (fun he => hiAB he.symm), if_pos rfl] at this
    rw [← this]
    exact List.get_mem newSets iA hj
  have hbIn : b2 ∈ newSets := by
    have hj : iB < newSets.length := by rw [hlen]; exact hiB
    have := hgetNew iB hj hiB
    rw [if_pos rfl] at this
    rw [← this]
    exact List.get_mem newSets iB hj
  have hcases : ∀ s ∈ newSets, s = a2 ∨ s = b2 ∨
      (∃ j, ∃ hj : j < st.sets.length, j ≠ iA ∧ j ≠ iB ∧ st.sets.get ⟨j, hj⟩ = s) := by
    intro s hs
    obtain ⟨j, hj, hjs⟩ := List.mem_iff_getElem.mp hs
    have hj2 : j < st.sets.length := by rw [← hlen]; exact hj
    have := hgetNew j hj hj2
    rw [List.get_eq_getElem] at this
    rw [hjs] at this
    by_cases hjB : iB = j
    · rw [if_pos hjB] at this; exact Or.inr (Or.inl this)
    · rw [if_neg hjB] at this
      by_cases hjA : iA = j
      · rw [if_pos hjA] at this; exact Or.inl this
      · rw [if_neg hjA] at this
        exact Or.inr (Or.inr ⟨j, hj2, fun he => hjA he.symm, fun he => hjB he.symm,
          this.symm⟩)
  refine ⟨List.mem_mergeSort.mpr haIn, List.mem_mergeSort.mpr hbIn, ?_, ?_, ?_, ?_, trivial, ?_⟩
  · intro s hs hsid
    rcases hcases s (hmemNew s hs) with h | h | ⟨j, hj, hjA, hjB, hjs⟩
    · exact h
    · exfalso; exact hne (by rw [← hsid, h, hIdB])
    · exfalso
      apply hjA
      exact getElem_id_injective hnodup hj hiA (by rw [hjs, hsid, ← hA])
  · intro s hs hsid
    rcases hcases s (hmemNew s hs) with h | h | ⟨j, hj, hjA, hjB, hjs⟩
    · exfalso; exact hne (show aid = bid by rw [← hIdA, ← h]; exact hsid)
    · exact h
    · exfalso
      apply hjB
      exact getElem_id_injective hnodup hj hiB (by rw [hjs, hsid, ← hB])
  · intro s hs hsa hsb
    rcases hcases s (hmemNew s hs) with h | h | ⟨j, hj, hjA, hjB, hjs⟩
    · exact absurd (h ▸ hIdA) hsa
    · exact absurd (h ▸ hIdB) hsb
    · rw [← hjs]; exact List.get_mem st.sets j hj
  · have hfa : (fun s => s.order) a2 = (fun s => s.order) (st.sets.get ⟨iB, hiB⟩) := by
      show (some oB : Option Int) = (st.sets.get ⟨iB, hiB⟩).order
      exact hBord.symm
    have hfb : (fun s => s.order) b2 = (fun s => s.order) (st.sets.get ⟨iA, hiA⟩) := by
      show (some oA : Option Int) = (st.sets.get ⟨iA, hiA⟩).order
      exact hAord.symm
    have hswap := map_double_set_perm (fun s => s.order) st.sets iA iB hiA hiB hiAB
      a2 b2 hfa hfb
    have hsortperm : List.Perm (sortedSets.map fun s => s.order)
        (newSets.map fun s => s.order) := (List.mergeSort_perm newSets swapSortLe).map _
    exact Multiset.coe_eq_coe.mpr (hsortperm.trans hswap)
  · intro hsn hpermids
    have hidsA : ((st.sets.set iA a2).map fun s => s.id) = (st.sets.map fun s => s.id) :=
      map_set_eq_of_f_eq (fun s => s.id) st.sets iA hiA a2 (hIdA.trans hA.symm)
    have hiB2 : iB < (st.sets.set iA a2).length := by simpa using hiB
    have hmid2 : (st.sets.set iA a2).get ⟨iB, hiB2⟩ = st.sets.get ⟨iB, hiB⟩ := by
      simp only [List.get_eq_getElem, List.getElem_set, if_neg hiAB]
    have hidsB : (((st.sets.set iA a2).set iB b2).map fun s => s.id)
        = ((st.sets.set iA a2).map fun s => s.id) :=
      map_set_eq_of_f_eq (fun s => s.id) (st.sets.set iA a2) iB hiB2 b2
        (by rw [hmid2])
    have hids : (newSets.map fun s => s.id) = (st.sets.map fun s => s.id) :=
      hidsB.trans hidsA
    have hlen0 : 0 < sortedSets.length := by
      rw [hsorted, List.length_mergeSort, hlen]
      omega
    have hnonempty : sortedSets.isEmpty = false := by
      cases he : sortedSets with
      | nil => rw [he] at hlen0; simp at hlen0
      | cons x xs => rfl
    have hstoreval : (saveStickerSets st.store sortedSets false).store
        = sortedSets.foldl putRecord st.store := by
      unfold saveStickerSets
      rw [hnonempty]
      rfl
    have hperm3 : List.Perm (sortedSets.map fun s => s.id) (st.sets.map fun s => s.id) := by
      rw [← hids]
      exact (List.mergeSort_perm newSets swapSortLe).map _
    have hsortnodup : (sortedSets.map fun s => s.id).Nodup := hperm3.symm.nodup hnodup
    have := foldl_putRecord_cover_perm st.store sortedSets hsn hsortnodup
      (hpermids.trans hperm3.symm)
    simpa [hstoreval] using this

/-- With an injected engine failure, a nonempty batch write rejects and
rolls back. -/
theorem saveStickerSets_fails (store : Store) (sets : List StickerSet) (h : sets ≠ []) :
    saveStickerSets store sets true = ⟨.error .txnAborted, store⟩ := by
  unfold saveStickerSets
  have he : sets.isEmpty = false := by
    cases sets with
    | nil => exact absurd rfl h
    | cons x xs => rfl
  rw [he]
  rfl

/-- Demo records for concrete runs of the swap protocol. -/
def demoA : StickerSet := mkSet "a" (some 0) 1

/-- Second demo record. -/
def demoB : StickerSet := mkSet "b" (some 1) 2

/-- Third demo record. -/
def demoC : StickerSet := mkSet "c" (some 2) 3

/-- A state with record `a` selected as swap source and a mirrored
store. -/
def swapDemo : AppState :=
  { sets := [demoA, demoB, demoC], swapSourceId := some "a",
    store := [demoA, demoB, demoC] }

/-- Concrete instantiation of `handleSwapClick_swap_correct`: selecting
`a` (order 0) then clicking `b` (order 1) leaves both swapped records
in the listing, preserves the order multiset, and clears the
selection. -/
theorem handleSwapClick_swap_correct_witness :
    ({ demoA with order := some 1 } ∈ (handleSwapClick "b" swapDemo false).1.sets) ∧
    ({ demoB with order := some 0 } ∈ (handleSwapClick "b" swapDemo false).1.sets) ∧
    ((((handleSwapClick "b" swapDemo false).1.sets.map fun s => s.order) :
        Multiset (Option Int))
      = (([demoA, demoB, demoC].map fun s => s.order) : Multiset (Option Int))) ∧
    (handleSwapClick "b" swapDemo false).1.swapSourceId = none :=
  have h := handleSwapClick_swap_correct swapDemo rfl
    (show ("a" : String) ≠ "b" by decide) (by decide) 0 1
    (by decide) (by decide) rfl rfl rfl rfl
  ⟨h.1, h.2.1, h.2.2.2.2.2.1, h.2.2.2.2.2.2.1⟩

/-- C6: when the persist step of a swap fails, the in-memory listing
and the store are exactly their pre-swap values, the selection is reset
to `NONE`, and the error is reported (the alert flag is set). -/
theorem handleSwapClick_failure_rollback (st : AppState) {aid bid : String}
    (hsrc : st.swapSourceId = some aid) (hne : aid ≠ bid)
    (hnodup : (st.sets.map fun s => s.id).Nodup)
    (iA iB : ℕ) (hiA : iA < st.sets.length) (hiB : iB < st.sets.length)
    (hA : (st.sets.get ⟨iA, hiA⟩).id = aid) (hB : (st.sets.get ⟨iB, hiB⟩).id = bid) :
    ((handleSwapClick bid st true).1.sets = st.sets) ∧
    ((handleSwapClick bid st true).1.store = st.store) ∧
    ((handleSwapClick bid st true).1.swapSourceId = none) ∧
    ((handleSwapClick bid st true).2 = true) := by
  rw [handleSwapClick_eq st hsrc hne hnodup iA iB hiA hiB hA hB true]
  set sorted : List StickerSet := ((st.sets.set iA
      { st.sets.get ⟨iA, hiA⟩ with
        order := some (orderOr0 (st.sets.get ⟨iB, hiB⟩)) }).set iB
      { st.sets.get ⟨iB, hiB⟩ with
        order := some (orderOr0 (st.sets.get ⟨iA, hiA⟩)) }).mergeSort swapSortLe
    with hsorteddef
  have hlen0 : 0 < sorted.length := by
    rw [hsorteddef, List.length_mergeSort]
    simp only [List.length_set]
    omega
  have hnenil : sorted ≠ [] := List.ne_nil_of_length_pos hlen0
  rw [saveStickerSets_fails st.store sorted hnenil]
  exact ⟨rfl, rfl, rfl, rfl⟩

/-- Concrete instantiation of `handleSwapClick_failure_rollback` on the
demo state. -/
theorem handleSwapClick_failure_rollback_witness :
    ((handleSwapClick "b" swapDemo true).1.sets = [demoA, demoB, demoC]) ∧
    ((handleSwapClick "b" swapDemo true).1.store = [demoA, demoB, demoC]) ∧
    ((handleSwapClick "b" swapDemo true).1.swapSourceId = none) ∧
    ((handleSwapClick "b" swapDemo true).2 = true) :=
  handleSwapClick_failure_rollback swapDemo rfl
    (show ("a" : String) ≠ "b" by decide) (by decide) 0 1
    (by decide) (by decide) rfl rfl

/-- C10: deleting a record resets the swap selection when it pointed at
the deleted record, and the invariant that a `SOURCE(id)` selection
always refers to a listed record is preserved by every delete (also by
a failed one, which changes nothing). -/
theorem handleDeleteSet_selection_invariant (id : String) (st : AppState)
    (engineFails : Bool) :
    (st.swapSourceId = some id → (handleDeleteSet id st false).swapSourceId = none) ∧
    ((∀ s, st.swapSourceId = some s → ∃ t ∈ st.sets, t.id = s) →
      ∀ s, (handleDeleteSet id st engineFails).swapSourceId = some s →
        ∃ t ∈ (handleDeleteSet id st engineFails).sets, t.id = s) := by
  constructor
  · intro h
    unfold handleDeleteSet
    simp [h]
  · intro hinv s hs
    unfold handleDeleteSet at hs ⊢
    cases engineFails with
    | true => exact hinv s hs
    | false =>
      simp only [if_false, Bool.false_eq_true] at hs ⊢
      by_cases hsel : st.swapSourceId = some id
      · rw [if_pos hsel] at hs
        exact absurd hs (by simp)
      · rw [if_neg hsel] at hs
        obtain ⟨t, ht, htid⟩ := hinv s hs
        refine ⟨t, List.mem_filter.mpr ⟨ht, ?_⟩, htid⟩
        simp only [decide_eq_true_eq]
        intro he
        apply hsel
        rw [hs, ← htid, he]

/-- Concrete instantiation of `handleDeleteSet_selection_invariant`:
deleting the currently selected record clears the selection. -/
theorem handleDeleteSet_selection_invariant_witness :
    (swapDemo.swapSourceId = some "a") ∧
    (handleDeleteSet "a" swapDemo false).swapSourceId = none :=
  ⟨rfl, (handleDeleteSet_selection_invariant "a" swapDemo false).1 rfl⟩

/-! ### Import -/

/-- The import normalisation of `handleFileImport`: each record keeps
its `order` when it is a number and otherwise receives its zero-based
position in the imported array. -/
def cleanImportData (data : List StickerSet) : List StickerSet :=
  data.mapIdx fun idx s =>
    { s with order := if s.order.isSome then s.order else some idx }

/-- `handleFileImport` from the root component, after the JSON array
has been parsed: with the restore policy the store is cleared first;
a non-empty normalised batch is then persisted via `saveStickerSets`;
the listing is finally refreshed from `getAllStickerSets` of the
resulting store. -/
def handleFileImport (data : List StickerSet) (shouldClear : Bool) (store : Store)
    (engineFails : Bool) : Store :=
  let store1 := if shouldClear then clearAllStickerSets store else store
  if 0 < data.length then (saveStickerSets store1 (cleanImportData data) engineFails).store
  else store1

/-- A batch of fresh pairwise-distinct keys is appended in order. -/
theorem foldl_putRecord_all_new (batch : List StickerSet) (store : Store)
    (hnodup : (batch.map fun s => s.id).Nodup)
    (hnew : ∀ s ∈ batch, ∀ t ∈ store, t.id ≠ s.id) :
    batch.foldl putRecord store = store ++ batch := by
  induction batch generalizing store with
  | nil => simp
  | cons x rest ih =>
    simp only [List.map_cons, List.nodup_cons] at hnodup
    have hput : putRecord store x = store ++ [x] :=
      putRecord_of_not_mem (hnew x (by simp))
    have hnew2 : ∀ s ∈ rest, ∀ t ∈ store ++ [x], t.id ≠ s.id := by
      intro s hs t ht
      rcases List.mem_append.mp ht with h | h
      · exact hnew s (by simp [hs]) t h
      · have : t = x := by simpa using h
        subst this
        intro hts
        exact hnodup.1 (hts ▸ List.mem_map_of_mem (fun u => u.id) hs)
    rw [List.foldl_cons, hput, ih (store ++ [x]) hnodup.2 hnew2]
    simp

/-- C7: import normalisation and restore semantics.  Every imported
record missing an `order` receives its zero-based array position; and
a restore-policy import of a batch with pairwise-distinct ids leaves
the store holding exactly the imported (normalised) records — the
refreshed listing is a permutation of the normalised batch, has the
batch's length, and contains none of the records previously stored. -/
theorem handleFileImport_restore (data : List StickerSet) (store : Store)
    (hnodup : ((cleanImportData data).map fun s => s.id).Nodup) :
    (∀ (i : ℕ) (hi : i < data.length) (hi2 : i < (cleanImportData data).length),
      (data.get ⟨i, hi⟩).order = none →
      ((cleanImportData data).get ⟨i, hi2⟩).order = some i) ∧
    List.Perm (getAllStickerSets (handleFileImport data true store false))
      (cleanImportData data) ∧
    (getAllStickerSets (handleFileImport data true store false)).length = data.length ∧
    (∀ u ∈ getAllStickerSets (handleFileImport data true store false),
      u ∈ cleanImportData data) := by
  have hstoreval : handleFileImport data true store false = cleanImportData data := by
    unfold handleFileImport clearAllStickerSets
    by_cases hlen : 0 < data.length
    · rw [if_pos rfl, if_pos hlen]
      have hlen2 : (cleanImportData data).length = data.length := List.length_mapIdx
      have hne : ¬(cleanImportData data).isEmpty = true := by
        rw [List.isEmpty_iff]
        intro he
        rw [he] at hlen2
        simp only [List.length_nil] at hlen2
        omega
      unfold saveStickerSets
      rw [if_neg hne]
      show (cleanImportData data).foldl putRecord [] = cleanImportData data
      rw [foldl_putRecord_all_new (cleanImportData data) [] hnodup (by simp)]
      simp
    · have hdata : data = [] := by
        cases data with
        | nil => rfl
        | cons x xs => simp at hlen
      subst hdata
      simp [cleanImportData]
  refine ⟨?_, ?_, ?_, ?_⟩
  · intro i hi hi2 hnone
    unfold cleanImportData
    simp only [List.get_eq_getElem, List.getElem_mapIdx]
    rw [List.get_eq_getElem] at hnone
    rw [hnone]
    rfl
  · rw [hstoreval]
    exact getAllStickerSets_perm (cleanImportData data)
  · rw [hstoreval, length_getAllStickerSets]
    unfold cleanImportData
    exact List.length_mapIdx
  · intro u hu
    rw [hstoreval] at hu
    exact mem_getAllStickerSets.mp hu

/-- Concrete instantiation of `handleFileImport_restore`: five records
imported with the restore policy over a three-record store; the middle
record lacks an `order` and receives position 2. -/
theorem handleFileImport_restore_witness :
    ((cleanImportData [mkSet "i0" (some 7) 1, mkSet "i1" (some 3) 2, mkSet "i2" none 3,
        mkSet "i3" none 4, mkSet "i4" (some 0) 5]).map fun s => s.id).Nodup ∧
    ((cleanImportData [mkSet "i0" (some 7) 1, mkSet "i1" (some 3) 2, mkSet "i2" none 3,
        mkSet "i3" none 4, mkSet "i4" (some 0) 5]).get ⟨2, by decide⟩).order = some 2 ∧
    (getAllStickerSets (handleFileImport
        [mkSet "i0" (some 7) 1, mkSet "i1" (some 3) 2, mkSet "i2" none 3,
          mkSet "i3" none 4, mkSet "i4" (some 0) 5] true
        [demoA, demoB, demoC] false)).length = 5 :=
  have h := handleFileImport_restore
    [mkSet "i0" (some 7) 1, mkSet "i1" (some 3) 2, mkSet "i2" none 3,
      mkSet "i3" none 4, mkSet "i4" (some 0) 5]
    [demoA, demoB, demoC] (by decide)
  ⟨by decide, h.1 2 (by decide) (by decide) rfl, h.2.2.1⟩

/-! ### GitHub sync service: upload size gating and download truncation
handling (the defensive revision of `services/githubSync.ts`). -/

/-- Outcome of `JSON.parse` as the sync service uses it: an array of
records, some other JSON value, or a parse failure with the parser's
message. -/
inductive ParsedJson
  | array (sets : List StickerSet)
  | other
deriving DecidableEq, Repr

/-- Errors raised by `download`. -/
inductive DownloadError
  | rawFetchFailed
  | htmlContent
  | notArray
  | likelyTruncated
  | malformed (msg : String)
deriving DecidableEq, Repr

/-- The gist file as returned by the metadata fetch, together with the
body its `raw_url` serves and whether that raw fetch succeeds. -/
structure GistFile where
  content : String
  truncated : Bool
  rawContent : String
  rawFetchOk : Bool
deriving Repr

/-- Whether `pat` occurs inside `s` (JS `String.prototype.includes`). -/
def listContains (pat : List Char) : List Char → Bool
  | [] => pat.isPrefixOf ([] : List Char)
  | c :: t => pat.isPrefixOf (c :: t) || listContains pat t

/-- JS `!content || content.trim() === ''`. -/
def isBlank (s : String) : Bool := (s.toList.dropWhile Char.isWhitespace).isEmpty

/-- JS `content.trim().startsWith(pat)` for a non-blank pattern (only
leading whitespace matters). -/
def trimmedStartsWith (s pat : String) : Bool :=
  pat.toList.isPrefixOf (s.toList.dropWhile Char.isWhitespace)

/-- The content-processing tail of `download`: empty content resolves
to the empty catalog, HTML markup is rejected, the content is parsed
as JSON, a non-array rejects, and a parse failure is classified as
likely-truncated (message mentions `Unterminated` or `Unexpected end`)
or malformed.  `parse` stands for the platform `JSON.parse`. -/
def processContent (parse : String → Except String ParsedJson) (content : String) :
    Except DownloadError (List StickerSet) :=
  if isBlank content then .ok []
  else if trimmedStartsWith content "<!DOCTYPE" || trimmedStartsWith content "<html" then
    .error .htmlContent
  else
    match parse content with
    | .ok (.array sets) => .ok sets
    | .ok .other => .error .notArray
    | .error msg =>
      if listContains "Unterminated".toList msg.toList
          || listContains "Unexpected end".toList msg.toList then
        .error .likelyTruncated
      else .error (.malformed msg)

/-- The per-file part of `GitHubSyncService.download`: when the
metadata marks the embedded content truncated, the full body is fetched
from `raw_url` and processed instead of the embedded field; otherwise
the embedded content is processed. -/
def download (parse : String → Except String ParsedJson) (file : GistFile) :
    Except DownloadError (List StickerSet) :=
  if file.truncated then
    if file.rawFetchOk then processContent parse file.rawContent
    else .error .rawFetchFailed
  else processContent parse file.content

/-- C4: for a blob marked truncated, `download` never reads the
metadata-embedded content — the result is unchanged under any
replacement of that field — and, when the raw fetch succeeds and the
raw full content passes the emptiness/HTML checks and parses to an
array, the result is exactly the data parsed from the raw full
content. -/
theorem download_truncated_uses_raw (parse : String → Except String ParsedJson)
    (file : GistFile) (sets : List StickerSet) (htrunc : file.truncated = true) :
    (∀ c1 c2 : String,
      download parse { file with content := c1 }
        = download parse { file with content := c2 }) ∧
    (file.rawFetchOk = true → isBlank file.rawContent = false →
      trimmedStartsWith file.rawContent "<!DOCTYPE" = false →
      trimmedStartsWith file.rawContent "<html" = false →
      parse file.rawContent = .ok (.array sets) →
      download parse file = .ok sets) := by
  constructor
  · intro c1 c2
    unfold download
    simp only [htrunc, if_true]
  · intro hraw hblank hd hh hparse
    unfold download
    rw [htrunc, if_pos rfl, if_pos hraw]
    unfold processContent
    rw [hblank, hd, hh]
    simp [hparse]

/-- Concrete instantiation of `download_truncated_uses_raw`: a
truncated file whose embedded content is a strict prefix of the raw
body; the result is the parse of the raw body. -/
theorem download_truncated_uses_raw_witness :
    (let parse : String → Except String ParsedJson :=
      fun s => if s = "RAWFULL" then .ok (.array [demoA]) else .ok .other
     download parse
        { content := "RAW", truncated := true, rawContent := "RAWFULL", rawFetchOk := true }
        = .ok [demoA]) :=
  (download_truncated_uses_raw
    (fun s => if s = "RAWFULL" then .ok (.array [demoA]) else .ok .other)
    { content := "RAW", truncated := true, rawContent := "RAWFULL", rawFetchOk := true }
    [demoA] rfl).2 rfl (by decide) (by decide) (by decide) (by simp)

/-- Errors raised by `upload`. -/
inductive UploadError
  | notLoggedIn
  | formatError (msg : String)
  | sizeLimit
  | uploadFailed (msg : String)
deriving DecidableEq, Repr

/-- The two gist-writing network calls. -/
inductive NetCall
  | createGist
  | updateGist
deriving DecidableEq, Repr

/-- What an `upload` run did: which network calls it performed, whether
the soft-threshold warning was emitted, and how it settled. -/
structure UploadResult where
  calls : List NetCall
  warned : Bool
  result : Except UploadError Unit
deriving Repr

/-- `GitHubSyncService.upload` (defensive revision): requires a token,
serialises the catalog, round-trips it through the parser insisting on
an array, rejects above the 10 MiB hard ceiling before any network
call, warns above the 5 MiB soft threshold, then updates the cached
gist or creates a new one.  `stringify`/`parse` stand for the platform
JSON, `netOk` for the gist-call outcome; the byte size is the UTF-8
size of the serialised string (JS `new Blob([content]).size`). -/
def upload (hasToken : Bool) (gistId : Option String)
    (stringify : List StickerSet → String) (parse : String → Except String ParsedJson)
    (netOk : Except String Unit) (stickerSets : List StickerSet) : UploadResult :=
  if !hasToken then ⟨[], false, .error .notLoggedIn⟩
  else
    match parse (stringify stickerSets) with
    | .ok (.array _) =>
      if 10 * 1048576 < (stringify stickerSets).utf8ByteSize then
        ⟨[], false, .error .sizeLimit⟩
      else
        let warned := 5 * 1048576 < (stringify stickerSets).utf8ByteSize
        let call := if gistId.isSome then NetCall.updateGist else NetCall.createGist
        match netOk with
        | .ok _ => ⟨[call], warned, .ok ()⟩
        | .error msg => ⟨[call], warned, .error (.uploadFailed msg)⟩
    | .ok .other => ⟨[], false, .error (.formatError "serialized data is not an array")⟩
    | .error msg => ⟨[], false, .error (.formatError msg)⟩

/-- C5: with a valid serialisation, a catalog whose serialised form
exceeds the 10 MiB ceiling is rejected with the size-limit error and
no network call is performed; one between the 5 MiB soft threshold and
the ceiling emits the warning, is not size-rejected, performs its gist
call, and succeeds whenever the network does. -/
theorem upload_size_gating (gistId : Option String)
    (stringify : List StickerSet → String) (parse : String → Except String ParsedJson)
    (netOk : Except String Unit) (stickerSets : List StickerSet)
    (l : List StickerSet) (hparse : parse (stringify stickerSets) = .ok (.array l)) :
    (10 * 1048576 < (stringify stickerSets).utf8ByteSize →
      upload true gistId stringify parse netOk stickerSets
        = ⟨[], false, .error .sizeLimit⟩) ∧
    (5 * 1048576 < (stringify stickerSets).utf8ByteSize →
      (stringify stickerSets).utf8ByteSize ≤ 10 * 1048576 →
      (upload true gistId stringify parse netOk stickerSets).warned = true ∧
      (upload true gistId stringify parse netOk stickerSets).calls
        = [if gistId.isSome then NetCall.updateGist else NetCall.createGist] ∧
      (upload true gistId stringify parse netOk stickerSets).result
        ≠ .error .sizeLimit ∧
      (netOk = .ok () →
        (upload true gistId stringify parse netOk stickerSets).result = .ok ())) := by
  constructor
  · intro hbig
    unfold upload
    rw [hparse]
    simp only [Bool.not_true, Bool.false_eq_true, if_false, if_pos hbig]
  · intro hsoft hhard
    unfold upload
    rw [hparse]
    have hnotbig : ¬(10 * 1048576 < (stringify stickerSets).utf8ByteSize) := by omega
    simp only [Bool.not_true, Bool.false_eq_true, if_false, if_neg hnotbig]
    cases netOk with
    | ok u =>
      refine ⟨by simpa using hsoft, rfl, by simp, fun _ => rfl⟩
    | error msg =>
      refine ⟨by simpa using hsoft, rfl, by simp, fun h => by simp at h⟩

/-- Byte size of a run of `n` ASCII characters. -/
theorem utf8ByteSize_replicate (n : ℕ) :
    (String.mk (List.replicate n 'a')).utf8ByteSize = n := by
  show String.utf8ByteSize.go (List.replicate n 'a') = n
  induction n with
  | zero => rfl
  | succ k ih =>
    rw [List.replicate_succ]
    show String.utf8ByteSize.go (List.replicate k 'a') + Char.utf8Size 'a' = k + 1
    have ha : Char.utf8Size 'a' = 1 := by decide
    rw [ih, ha]

/-- Concrete instantiation of `upload_size_gating`: an 11 MiB-plus
serialisation is rejected with no network call, and a 6 MiB one warns
and uploads. -/
theorem upload_size_gating_witness :
    (upload true none (fun _ => String.mk (List.replicate 11534336 'a'))
        (fun _ => .ok (.array [])) (.ok ()) []
      = ⟨[], false, .error .sizeLimit⟩) ∧
    ((upload true none (fun _ => String.mk (List.replicate 6291456 'a'))
        (fun _ => .ok (.array [])) (.ok ()) []).warned = true) ∧
    ((upload true none (fun _ => String.mk (List.replicate 6291456 'a'))
        (fun _ => .ok (.array [])) (.ok ()) []).result = .ok ()) :=
  have hbig : 10 * 1048576
      < ((fun (_ : List StickerSet) => String.mk (List.replicate 11534336 'a')) []).utf8ByteSize := by
    rw [utf8ByteSize_replicate]
    omega
  have hsoft : 5 * 1048576
      < ((fun (_ : List StickerSet) => String.mk (List.replicate 6291456 'a')) []).utf8ByteSize := by
    rw [utf8ByteSize_replicate]
    omega
  have hhard : ((fun (_ : List StickerSet) => String.mk (List.replicate 6291456 'a')) []).utf8ByteSize
      ≤ 10 * 1048576 := by
    rw [utf8ByteSize_replicate]
    omega
  have h1 := (upload_size_gating none (fun _ => String.mk (List.replicate 11534336 'a'))
    (fun _ => .ok (.array [])) (.ok ()) [] [] rfl).1 hbig
  have h2 := (upload_size_gating none (fun _ => String.mk (List.replicate 6291456 'a'))
    (fun _ => .ok (.array [])) (.ok ()) [] [] rfl).2 hsoft hhard
  ⟨h1, h2.1, h2.2.2.2 rfl⟩

/-! ### Image codec: dimension arithmetic and the alpha-presence scan
(`utils/imageCompression.ts`, the revision with the transparency
check). -/

/-- Dimension computation of `compressImage`: when the source is wider
than `maxWidth` the height is scaled by `maxWidth / width` and the
width clamped; assigning the resulting JS number to `canvas.height`
truncates the fraction, hence floor division. -/
def compressImageDims (w h maxWidth : ℕ) : ℕ × ℕ :=
  if maxWidth < w then (maxWidth, h * maxWidth / w) else (w, h)

/-- Dimension computation of `compressExistingImage` (`shouldResize`),
identical arithmetic. -/
def compressExistingImageDims (w h maxWidth : ℕ) : ℕ × ℕ :=
  if maxWidth < w then (maxWidth, h * maxWidth / w) else (w, h)

/-- Round-half-up of `a / b` over the naturals. -/
def roundDiv (a b : ℕ) : ℕ := (2 * a + b) / (2 * b)

/-- Floor division differs from round-half-up by at most one. -/
theorem floorDiv_le_roundDiv (a b : ℕ) (hb : 0 < b) :
    a / b ≤ roundDiv a b ∧ roundDiv a b ≤ a / b + 1 := by
  constructor
  · have h1 : a / b = 2 * a / (2 * b) := (Nat.mul_div_mul_left a b (by omega)).symm
    unfold roundDiv
    rw [h1]
    exact Nat.div_le_div_right (by omega)
  · have h2b : 0 < 2 * b := by omega
    have hlt : a % b < b := Nat.mod_lt a hb
    have heq : b * (a / b) + a % b = a := Nat.div_add_mod a b
    have hstep : (2 * a + b) / (2 * b) < a / b + 2 := by
      rw [Nat.div_lt_iff_lt_mul h2b]
      nlinarith
    unfold roundDiv
    omega

/-- C8: for a source wider than `maxWidth`, both compression routines
emit width exactly `maxWidth` and a height within one pixel of
`round(h * maxWidth / w)`; for a source not wider than `maxWidth` the
dimensions are unchanged. -/
theorem compress_dims_spec (w h maxWidth : ℕ) :
    (maxWidth < w →
      (compressImageDims w h maxWidth).1 = maxWidth ∧
      (compressImageDims w h maxWidth).2 ≤ roundDiv (h * maxWidth) w ∧
      roundDiv (h * maxWidth) w ≤ (compressImageDims w h maxWidth).2 + 1 ∧
      compressExistingImageDims w h maxWidth = compressImageDims w h maxWidth) ∧
    (w ≤ maxWidth →
      compressImageDims w h maxWidth = (w, h) ∧
      compressExistingImageDims w h maxWidth = (w, h)) := by
  constructor
  · intro hw
    have hwpos : 0 < w := by omega
    have hb := floorDiv_le_roundDiv (h * maxWidth) w hwpos
    unfold compressImageDims compressExistingImageDims
    rw [if_pos hw]
    exact ⟨rfl, hb.1, hb.2, rfl⟩
  · intro hw
    have hnot : ¬(maxWidth < w) := by omega
    unfold compressImageDims compressExistingImageDims
    rw [if_neg hnot]
    exact ⟨rfl, rfl⟩

/-- Concrete instantiation of `compress_dims_spec`: a 2000 × 1000
source at `maxWidth = 800` comes out as 800 × 400, and a 500 × 300
source is left at 500 × 300. -/
theorem compress_dims_spec_witness :
    compressImageDims 2000 1000 800 = (800, 400) ∧
    (compressImageDims 2000 1000 800).2 ≤ roundDiv (1000 * 800) 2000 ∧
    compressExistingImageDims 500 300 800 = (500, 300) :=
  have h1 := (compress_dims_spec 2000 1000 800).1 (by decide)
  have h2 := (compress_dims_spec 500 300 800).2 (by decide)
  ⟨by decide, h1.2.1, h2.2⟩

/-- The alpha-presence loop of `hasTransparency`:
`for (let i = 3; i < data.length; i += 400)` — the scan samples the
alpha byte of every 100th pixel.  The loop is driven by a fuel
argument, one unit per iteration, so that `data.length + 1` units
always suffice. -/
def hasTransparencyGo (data : List ℕ) : ℕ → ℕ → Bool
  | _, 0 => false
  | i, fuel + 1 =>
    match data.get? i with
    | some v => if v < 255 then true else hasTransparencyGo data (i + 400) fuel
    | none => false

/-- `hasTransparency` from `utils/imageCompression.ts`: samples alpha
bytes at indices 3, 403, 803, …; if reading the canvas pixels throws
(`getImageDataOk = false`), transparency is conservatively assumed. -/
def hasTransparency (data : List ℕ) (getImageDataOk : Bool) : Bool :=
  if getImageDataOk then hasTransparencyGo data 3 (data.length + 1) else true

/-- The format decision of `compressExistingImage`: the lossless
alpha-preserving PNG path is taken exactly when the data URL declares
PNG and the sampled alpha scan reports transparency; otherwise the
raster is flattened onto the opaque background and encoded as lossy
JPEG. -/
def compressExistingImageFormat (dataUrl : String) (canvasData : List ℕ)
    (getImageDataOk : Bool) : Bool :=
  "data:image/png".toList.isPrefixOf dataUrl.toList
    && hasTransparency canvasData getImageDataOk

/-- The alpha bytes of an RGBA byte array: every fourth byte starting
at index 3. -/
def alphaBytes (data : List ℕ) : List ℕ :=
  (data.enum.filter (fun p => p.1 % 4 == 3)).map Prod.snd

/-- With enough fuel, the sampled scan finds exactly the sub-255 bytes
at indices `i + 400 * k`. -/
theorem hasTransparencyGo_iff (data : List ℕ) :
    ∀ (fuel i : ℕ), data.length < i + fuel →
      (hasTransparencyGo data i fuel = true ↔
        ∃ k, ∃ h : i + 400 * k < data.length, data.get ⟨i + 400 * k, h⟩ < 255)
  | 0, i, hfuel => by
    constructor
    · intro h
      simp [hasTransparencyGo] at h
    · rintro ⟨k, hk, _⟩
      omega
  | fuel + 1, i, hfuel => by
    show ((match data.get? i with
      | some v => if v < 255 then true else hasTransparencyGo data (i + 400) fuel
      | none => false) = true) ↔ _
    cases hget : data.get? i with
    | none =>
      have hlen : data.length ≤ i := by
        by_contra hcon
        rw [List.get?_eq_get (by omega)] at hget
        exact Option.noConfusion hget
      constructor
      · intro h
        simp at h
      · rintro ⟨k, hk, _⟩
        omega
    | some v =>
      have hi : i < data.length := by
        by_contra hcon
        rw [List.get?_eq_none.mpr (by omega)] at hget
        exact Option.noConfusion hget
      have hv : data.get ⟨i, hi⟩ = v := by
        rw [List.get?_eq_get hi] at hget
        exact Option.some.inj hget
      show (if v < 255 then true else hasTransparencyGo data (i + 400) fuel) = true ↔ _
      by_cases hlt : v < 255
      · rw [if_pos hlt]
        simp only [true_iff]
        exact ⟨0, by omega, by
          have : i + 400 * 0 = i := by omega
          simp only [this]
          rw [hv]
          exact hlt⟩
      · rw [if_neg hlt]
        have ih := hasTransparencyGo_iff data fuel (i + 400) (by omega)
        rw [ih]
        constructor
        · rintro ⟨k, hk, hbyte⟩
          refine ⟨k + 1, by omega, ?_⟩
          have harith : i + 400 * (k + 1) = i + 400 + 400 * k := by omega
          rw [List.get_eq_getElem] at hbyte ⊢
          simp only [harith]
          exact hbyte
        · rintro ⟨k, hk, hbyte⟩
          cases k with
          | zero =>
            exfalso
            apply hlt
            have harith : i + 400 * 0 = i := by omega
            rw [List.get_eq_getElem] at hbyte
            simp only [harith] at hbyte
            rw [List.get_eq_getElem] at hv
            rw [← hv]
            exact hbyte
          | succ k2 =>
            refine ⟨k2, by omega, ?_⟩
            have harith : i + 400 + 400 * k2 = i + 400 * (k2 + 1) := by omega
            rw [List.get_eq_getElem] at hbyte ⊢
            simp only [harith]
            exact hbyte

/-- C9 (amended): the lossless alpha-preserving path is taken exactly
when the source declares PNG and some *sampled* alpha byte — indices
3, 403, 803, …, i.e. every 100th pixel — is below 255.  A PNG whose
sub-opaque pixels all lie outside the sampling stride is flattened and
lossily encoded. -/
theorem compressExistingImageFormat_iff (dataUrl : String) (data : List ℕ) :
    compressExistingImageFormat dataUrl data true = true ↔
      ("data:image/png".toList.isPrefixOf dataUrl.toList = true ∧
        ∃ k, ∃ h : 3 + 400 * k < data.length, data.get ⟨3 + 400 * k, h⟩ < 255) := by
  unfold compressExistingImageFormat hasTransparency
  rw [if_pos rfl, Bool.and_eq_true,
    hasTransparencyGo_iff data (data.length + 1) 3 (by omega)]

/-- C9 is false as stated: a two-pixel PNG raster whose second pixel is
fully transparent (alpha 0) — so the image does contain a pixel with
alpha below 255 — is sent down the lossy flatten path, because the
sampled scan only inspects every 100th pixel and sees only the opaque
first pixel. -/
theorem compressExistingImageFormat_misses_transparency :
    ("data:image/png".toList.isPrefixOf "data:image/png;base64,iVBOR".toList = true) ∧
    ((alphaBytes [10, 20, 30, 255, 10, 20, 30, 0]).any (fun v => v < 255) = true) ∧
    compressExistingImageFormat "data:image/png;base64,iVBOR"
      [10, 20, 30, 255, 10, 20, 30, 0] true = false := by
  refine ⟨by decide, by decide, by decide⟩

end StickerMgmt

